import Mathlib

/-!
Shallow embedding of the attendance-ledger and payroll-settlement core of
the worker_attendance application, together with proofs checking the
natural-language specification against the code.

Sources embedded:
* `src/hooks/useAttendance.ts` — attendance ledger (`saveAttendanceRecords`,
  `getAttendanceByFolder`, `getCurrentAttendance`).
* `src/app/manage-workers.tsx` — payroll settlement engine
  (`calculateNoteDistribution`, `loadWorkersWithAdvance`, `generateReport`).
* `src/unnamed/part_001` — advance-entry workflow (`addAdvance`).

Modelling conventions: JavaScript strings stay `String`; attendance dates are
compared only for equality and stay `String`; advance dates are compared with
`new Date(a.date) <= end` and are modelled as `Int` timestamps; currency
amounts (the numeric value `Number(x)` of the stored strings) are `Int`;
`Math.floor` of a quotient of integers is Lean's `Int` division (`/`, which
rounds toward negative infinity for positive divisors, exactly as JavaScript's
`Math.floor(x / y)` does); optional object fields (`deducted?: boolean`,
`deductedOn?: string`) are `Option`s, `none` meaning the field is absent, and
JavaScript's truthiness test `!adv.deducted` is `isDeducted adv = false`.
-/

/-- Attendance status: `'present' | 'absent' | 'half-day'` in
`src/hooks/useAttendance.ts`. -/
inductive Status where
  | present
  | absent
  | halfDay
deriving DecidableEq, Repr

/-- `AttendanceRecord` from `src/hooks/useAttendance.ts`. -/
structure AttendanceRecord where
  workerId : String
  date : String
  status : Status
  folderName : String
deriving DecidableEq, Repr

/-- The state owned by the `useAttendance` hook: the two React state lists
and the two persisted collections behind `storeData`/`getData`. -/
structure LedgerState where
  attendance : List AttendanceRecord
  currentAttendance : List AttendanceRecord
  storedAttendance : List AttendanceRecord
  storedCurrent : List AttendanceRecord
deriving DecidableEq, Repr

/-- `const key = (r) => `${r.folderName}-${r.date}`` in `saveAttendanceRecords`. -/
def recordKey (r : AttendanceRecord) : String :=
  r.folderName ++ "-" ++ r.date

/-- `saveAttendanceRecords` (`src/hooks/useAttendance.ts` lines 43–73):
drop every stored record whose `folderName-date` key occurs in the batch,
append the batch, overwrite the current working set with the batch, and
persist both lists. -/
def saveAttendanceRecords (s : LedgerState) (records : List AttendanceRecord) :
    LedgerState :=
  let recordKeys := records.map recordKey
  let filteredAttendance :=
    s.attendance.filter (fun r => !(recordKeys.contains (recordKey r)))
  let finalAttendance := filteredAttendance ++ records
  { attendance := finalAttendance
    currentAttendance := records
    storedAttendance := finalAttendance
    storedCurrent := records }

/-- `getAttendanceByFolder` (`src/hooks/useAttendance.ts` lines 75–96):
reads the persisted list and concatenates the in-memory `attendance` state
with it before filtering — there is no deduplication. -/
def getAttendanceByFolder (s : LedgerState) (folderName date : String) :
    List AttendanceRecord :=
  if date = "" then
    (s.attendance ++ s.storedAttendance).filter
      (fun r => r.folderName == folderName)
  else
    (s.attendance ++ s.storedAttendance).filter
      (fun r => r.folderName == folderName && r.date == date)

/-- `getCurrentAttendance` (`src/hooks/useAttendance.ts` lines 98–141):
current working set first, then the in-memory permanent list, then storage;
each later source is consulted only when every earlier one had no match. -/
def getCurrentAttendance (s : LedgerState) (folderName date : String) :
    List AttendanceRecord :=
  let currentRecords := s.currentAttendance.filter
    (fun r => r.folderName == folderName && r.date == date)
  if currentRecords.length > 0 then currentRecords
  else
    let permanentRecords := s.attendance.filter
      (fun r => r.folderName == folderName && r.date == date)
    if permanentRecords.length > 0 then permanentRecords
    else
      let records := s.storedAttendance.filter
        (fun r => r.folderName == folderName && r.date == date)
      if records.length > 0 then records else []

/-- `deleteRecordsByDate` (`src/hooks/useAttendance.ts` lines 143–149). -/
def deleteRecordsByDate (s : LedgerState) (folderName date : String) :
    LedgerState :=
  let updatedRecords := s.attendance.filter
    (fun r => !(r.folderName == folderName && r.date == date))
  { s with attendance := updatedRecords, storedAttendance := updatedRecords }

/-- `deleteAllFolderRecords` (`src/hooks/useAttendance.ts` lines 151–157). -/
def deleteAllFolderRecords (s : LedgerState) (folderName : String) :
    LedgerState :=
  let updatedRecords := s.attendance.filter
    (fun r => !(r.folderName == folderName))
  { s with attendance := updatedRecords, storedAttendance := updatedRecords }

/-- An `Advance` row as persisted under the `advances` key.  The entry form
(`src/unnamed/part_001`) creates rows without a `deducted`/`deductedOn`
field; `src/app/advance-records.tsx` and `src/app/manage-workers.tsx` read
them back with `deducted?: boolean` and `deductedOn?: string`, so both are
`Option`s, `none` standing for an absent field.  `amount` is the numeric
value `Number(a.amount)` of the stored string; `date` is the timestamp of
`new Date(a.date)`. -/
structure Advance where
  id : String
  workerId : String
  workerName : String
  amount : Int
  date : Int
  remarks : String
  deducted : Option Bool
  deductedOn : Option String
deriving DecidableEq, Repr

/-- JavaScript truthiness of `adv.deducted`: `undefined` (absent) and
`false` are both falsy, only `true` is truthy. -/
def isDeducted (a : Advance) : Bool :=
  a.deducted == some true

/-- A worker as stored in the worker registry: `id`, `name` and the list of
folder names the worker belongs to (`w.folders.includes(folder)`). -/
structure Worker where
  id : String
  name : String
  folders : List String
deriving DecidableEq, Repr

/-- `loadWorkersWithAdvance` (`src/app/manage-workers.tsx` lines 674–689):
keep the advances that are not deducted and whose `workerId` matches a
worker who is a member of the selected folder.  Note the code applies no
date bound. -/
def loadWorkersWithAdvance (advances : List Advance) (workers : List Worker)
    (selectedFolder : String) : List Advance :=
  advances.filter (fun adv =>
    !(isDeducted adv) &&
      workers.any (fun w => w.id == adv.workerId &&
        w.folders.contains selectedFolder))

/-- Modelled from the spec: `listUnsettledForFolder(folderName, asOfDate)`
as §4.2 words it, with the additional `date ≤ asOfDate` condition, for
comparison against `loadWorkersWithAdvance`. -/
def specListUnsettledForFolder (advances : List Advance) (workers : List Worker)
    (folderName : String) (asOfDate : Int) : List Advance :=
  advances.filter (fun adv =>
    !(isDeducted adv) && decide (adv.date ≤ asOfDate) &&
      workers.any (fun w => w.id == adv.workerId &&
        w.folders.contains folderName))

/-- The body of the `advances.map` in the settlement write-back of
`generateReport` (`src/app/manage-workers.tsx` lines 842–853): stamp
`deducted: true, deductedOn: now` when the advance's worker is selected,
its date is within the report range and it is not already deducted;
otherwise return the advance unchanged. -/
def settleStep (selectedAdvanceWorkers : List String) (endDate : Int)
    (now : String) (adv : Advance) : Advance :=
  if selectedAdvanceWorkers.contains adv.workerId &&
      decide (adv.date ≤ endDate) && !(isDeducted adv) then
    { adv with deducted := some true, deductedOn := some now }
  else adv

/-- The settlement write-back inside `generateReport`
(`src/app/manage-workers.tsx` lines 842–853): map `settleStep` over the
stored advances. -/
def settleAdvances (advances : List Advance) (selectedAdvanceWorkers : List String)
    (endDate : Int) (now : String) : List Advance :=
  advances.map (settleStep selectedAdvanceWorkers endDate now)

/-- The per-worker advance selection inside `generateReport`
(`src/app/manage-workers.tsx` lines 810–815): advances of this worker dated
on or before the report end, not yet deducted, with the worker among the
selected advance workers. -/
def reportWorkerAdvances (advances : List Advance) (workerId : String)
    (endDate : Int) (selectedAdvanceWorkers : List String) : List Advance :=
  advances.filter (fun a =>
    a.workerId == workerId && decide (a.date ≤ endDate) &&
      !(isDeducted a) && selectedAdvanceWorkers.contains workerId)

/-- `mkAdvance` — the object literal built for each selected worker in
`addAdvance` (`src/unnamed/part_001` lines 84–91).  `nowId` models
`Date.now().toString()`; the `deducted`/`deductedOn` fields are not part of
the literal, hence `none`. -/
def mkAdvance (nowId workerId : String) (workers : List Worker) (amount : Int)
    (date : Int) (remarks : String) : Advance :=
  { id := nowId ++ workerId
    workerId := workerId
    workerName :=
      match workers.find? (fun w => w.id == workerId) with
      | some w => w.name
      | none => "Unknown"
    amount := amount
    date := date
    remarks := remarks
    deducted := none
    deductedOn := none }

/-- `addAdvance` (`src/unnamed/part_001` lines 82–103): when at least one
worker is selected and an amount string was entered (`amountEntered` models
the truthiness of the raw `amount` string), append one new row per selected
worker to the stored list; otherwise do nothing. -/
def addAdvance (advances : List Advance) (selectedWorkers : List String)
    (workers : List Worker) (amountEntered : Bool) (amount : Int) (date : Int)
    (remarks : String) (nowId : String) : List Advance :=
  if selectedWorkers.length > 0 && amountEntered then
    advances ++ selectedWorkers.map
      (fun workerId => mkAdvance nowId workerId workers amount date remarks)
  else advances

/-- Wage rates for one folder (`folderRates[folder] || folderRates['Default']`,
values read through `Number(...)`). -/
structure Rates where
  fullDay : Int
  halfDay : Int
deriving DecidableEq, Repr

/-- One row of `reportData` in `generateReport`
(`src/app/manage-workers.tsx` lines 827–837). -/
structure WorkerReport where
  id : String
  name : String
  dailyWage : Int
  halfDayWage : Int
  attendance : List String
  totalPayment : Int
  advanceDeducted : Int
  advanceRemarks : List String
  netPayment : Int
deriving DecidableEq, Repr

/-- The per-worker body of the `workers.map` in `generateReport`
(`src/app/manage-workers.tsx` lines 784–838): per-date attendance codes with
absent-by-default, present/half-day counts, `totalPayment`, the optional
advance deduction over `reportWorkerAdvances`, and
`netPayment = Math.max(0, totalPayment - advanceDeducted)`.  The remarks
string is kept as the list of its parts. -/
def workerRow (attendance : List AttendanceRecord) (advances : List Advance)
    (rates : Rates) (deductAdvance : Bool) (selectedAdvanceWorkers : List String)
    (folder : String) (worker : Worker) (dates : List String) (endDate : Int) :
    WorkerReport :=
  let attendanceRecords := dates.map (fun targetDate =>
    match attendance.find? (fun a =>
        a.workerId == worker.id && a.folderName == folder &&
          a.date == targetDate) with
    | some record =>
        if record.status == Status.present then "P"
        else if record.status == Status.halfDay then "H"
        else "A"
    | none => "A")
  let presentDays := (attendanceRecords.filter (fun st => st == "P")).length
  let halfDays := (attendanceRecords.filter (fun st => st == "H")).length
  let totalPayment := presentDays * rates.fullDay + halfDays * rates.halfDay
  let workerAdvances :=
    if deductAdvance then
      reportWorkerAdvances advances worker.id endDate selectedAdvanceWorkers
    else []
  let advanceDeducted :=
    if workerAdvances.length > 0 then
      workerAdvances.foldl (fun sum adv => sum + adv.amount) 0
    else 0
  let advanceRemarks :=
    if workerAdvances.length > 0 then
      workerAdvances.map (fun adv => toString adv.date ++ ": " ++ toString adv.amount)
    else []
  let netPayment := max 0 (totalPayment - advanceDeducted)
  { id := worker.id
    name := worker.name
    dailyWage := rates.fullDay
    halfDayWage := rates.halfDay
    attendance := attendanceRecords
    totalPayment := totalPayment
    advanceDeducted := advanceDeducted
    advanceRemarks := advanceRemarks
    netPayment := netPayment }

/-- `reportData` — the `workers.map` of `workerRow` in `generateReport`. -/
def generateReportData (workers : List Worker) (attendance : List AttendanceRecord)
    (advances : List Advance) (rates : Rates) (deductAdvance : Bool)
    (selectedAdvanceWorkers : List String) (folder : String)
    (dates : List String) (endDate : Int) : List WorkerReport :=
  workers.map (fun w =>
    workerRow attendance advances rates deductAdvance selectedAdvanceWorkers
      folder w dates endDate)

/-- The result record of `calculateNoteDistribution`. -/
structure NoteResult where
  notes500 : Int
  notes100 : Int
deriving DecidableEq, Repr

/-- `Math.round(amount / 100) * 100` for an integral amount:
`Math.round(x) = ⌊x + 1/2⌋`, so the rounded amount is
`⌊(amount + 50) / 100⌋ * 100` with floor division. -/
def roundTo100 (amount : Int) : Int :=
  ((amount + 50) / 100) * 100

/-- The candidate `notes500` values scanned by the `for` loop in
`calculateNoteDistribution`: `0, 1, …, Math.floor(amount / 500)`, empty when
that bound is negative. -/
def noteCandidates (rounded : Int) : List Int :=
  let maxNotes500 := rounded / 500
  if maxNotes500 < 0 then []
  else (List.range (maxNotes500.toNat + 1)).map Int.ofNat

/-- One iteration of the loop body of `calculateNoteDistribution`
(`src/app/manage-workers.tsx` lines 580–594).  The accumulator pairs
`bestDiff` (`none` = `Infinity`) with the current best `result`. -/
def noteStep (rounded : Int) (acc : Option Int × NoteResult) (notes500 : Int) :
    Option Int × NoteResult :=
  let remainingAmount := rounded - notes500 * 500
  let notes100 := remainingAmount / 100
  if notes500 * 500 + notes100 * 100 = rounded then
    let diff := |notes500 - notes100|
    let better :=
      match acc.1 with
      | none => true
      | some bestDiff =>
          diff < bestDiff ∨
            (diff = bestDiff ∧
              notes500 + notes100 < acc.2.notes500 + acc.2.notes100)
    if better then (some diff, ⟨notes500, notes100⟩) else acc
  else acc

/-- `calculateNoteDistribution` (`src/app/manage-workers.tsx` lines 567–597):
round the amount to the nearest 100, scan all feasible 500-note counts, and
keep the combination minimizing `|notes500 - notes100|`, ties broken by the
smaller total note count. -/
def calculateNoteDistribution (amount : Int) : NoteResult :=
  let rounded := roundTo100 amount
  ((noteCandidates rounded).foldl (noteStep rounded) (none, ⟨0, 0⟩)).2

/-- The pair the optimizer's loop would build for a given 500-note count:
`notes100` is forced to `(rounded - notes500 * 500) / 100`. -/
def pairFor (rounded notes500 : Int) : NoteResult :=
  ⟨notes500, (rounded - notes500 * 500) / 100⟩

/-- Comparison key of the optimizer: count difference first, then total
note count. -/
def keyOf (p : NoteResult) : Int × Int :=
  (|p.notes500 - p.notes100|, p.notes500 + p.notes100)

/-- Lexicographic order on optimizer keys. -/
def keyLe (k k2 : Int × Int) : Prop :=
  k.1 < k2.1 ∨ (k.1 = k2.1 ∧ k.2 ≤ k2.2)

/-- The state touched by the effectful tail of `generateReport`: the
persisted `advances` collection and the persisted `saved_reports` list
(kept as the list of report ids). -/
structure ReportState where
  advances : List Advance
  savedReports : List String
deriving DecidableEq, Repr

/-- The effect sequence of `generateReport`
(`src/app/manage-workers.tsx` lines 840–1018) after `reportData` is
computed, with failure injection at the two fallible storage boundaries:
1. when `deductAdvance` is set and some advance workers are selected, write
   the settled advances back (`AsyncStorage.setItem`, line 855) — a failure
   here throws before anything else runs;
2. export the artifact (`Print.printToFileAsync` / `FileSystem.write…`) — a
   failure here throws after the settlement write has already been
   persisted;
3. only then persist the `ReportMeta` entry into `saved_reports`
   (lines 887/1006).
The result pairs the persisted state with `some` error when the run threw. -/
def runReportEffects (s : ReportState) (deductAdvance : Bool)
    (selectedAdvanceWorkers : List String) (endDate : Int) (now : String)
    (settleFails exportFails : Bool) (meta : String) :
    ReportState × Option String :=
  if deductAdvance && !(selectedAdvanceWorkers.isEmpty) then
    if settleFails then (s, some "storage error during settlement write-back")
    else
      let s1 : ReportState :=
        { s with advances :=
            settleAdvances s.advances selectedAdvanceWorkers endDate now }
      if exportFails then (s1, some "artifact export failed")
      else ({ s1 with savedReports := s1.savedReports ++ [meta] }, none)
  else
    if exportFails then (s, some "artifact export failed")
    else ({ s with savedReports := s.savedReports ++ [meta] }, none)

section AttendanceLedgerProofs

/-- Claim C1 (confirmed): for every batch and every `(folderName, date)`
pair occurring in the batch, `saveAttendanceRecords` removes every
previously stored record with that exact pair (any record for the pair in
the resulting ledger comes from the batch) and inserts all batch records;
in particular saving folder `F`, date `D` for workers `A, B` and then for
`A` only leaves no record for `B` at `(F, D)`. -/
theorem saveBatch_overwrites_pair (s : LedgerState)
    (records : List AttendanceRecord) (f d : String)
    (hpair : ∃ rb ∈ records, rb.folderName = f ∧ rb.date = d) :
    (∀ r ∈ (saveAttendanceRecords s records).attendance,
        r.folderName = f ∧ r.date = d → r ∈ records) ∧
    (∀ r ∈ records, r ∈ (saveAttendanceRecords s records).attendance) ∧
    (∀ r ∈ (saveAttendanceRecords
        (saveAttendanceRecords ⟨[], [], [], []⟩
          [⟨"A", "D", Status.present, "F"⟩, ⟨"B", "D", Status.present, "F"⟩])
        [⟨"A", "D", Status.present, "F"⟩]).attendance,
      r.workerId ≠ "B") := by
  obtain ⟨rb, hrb, hbf, hbd⟩ := hpair
  refine ⟨?_, ?_, ?_⟩
  · intro r hr hfd
    simp only [saveAttendanceRecords, List.mem_append] at hr
    rcases hr with hr | hr
    · exfalso
      have hmem := List.mem_filter.mp hr
      have hkey : recordKey r ∈ records.map recordKey := by
        have hk : recordKey r = recordKey rb := by
          simp [recordKey, hfd.1, hfd.2, hbf, hbd]
        rw [hk]
        exact List.mem_map_of_mem _ hrb
      have hnc := hmem.2
      rw [Bool.not_eq_true', ← Bool.not_eq_true, List.elem_iff] at hnc
      exact hnc hkey
    · exact hr
  · intro r hr
    simp only [saveAttendanceRecords, List.mem_append]
    exact Or.inr hr
  · decide

/-- Witness for claim C1: the general theorem applied at a concrete
single-record batch and a concrete stored record. -/
theorem saveBatch_overwrites_pair_witness :
    (⟨"A", "D", Status.present, "F"⟩ : AttendanceRecord) ∈
      [(⟨"A", "D", Status.present, "F"⟩ : AttendanceRecord)] :=
  (saveBatch_overwrites_pair ⟨[], [], [], []⟩
    [⟨"A", "D", Status.present, "F"⟩] "F" "D"
    ⟨⟨"A", "D", Status.present, "F"⟩, by decide, rfl, rfl⟩).1
    ⟨"A", "D", Status.present, "F"⟩ (by decide) ⟨rfl, rfl⟩

/-- Claim C8 (confirmed): re-invoking `saveAttendanceRecords` with an
identical batch leaves the entire ledger state — in-memory and persisted
lists, including record order — bit-identical to the state after the first
call. -/
theorem saveBatch_idempotent (s : LedgerState) (records : List AttendanceRecord) :
    saveAttendanceRecords (saveAttendanceRecords s records) records =
      saveAttendanceRecords s records := by
  simp only [saveAttendanceRecords]
  have h2 : records.filter
      (fun r => !((records.map recordKey).contains (recordKey r))) = [] := by
    rw [List.filter_eq_nil_iff]
    intro r hr
    simp only [Bool.not_eq_true', ← Bool.not_eq_true, List.elem_iff, not_not]
    exact List.mem_map_of_mem _ hr
  rw [List.filter_append, h2, List.append_nil, List.filter_filter]
  simp

/-- Counterexample for claim C3: after saving a one-record batch,
`getAttendanceByFolder` returns that record twice — the in-memory state and
the persisted set are concatenated without deduplication — so the query
does not return exactly the saved batch. -/
theorem queryByFolder_duplicates_after_save :
    getAttendanceByFolder
        (saveAttendanceRecords ⟨[], [], [], []⟩
          [⟨"A", "2024-01-01", Status.present, "F"⟩]) "F" "2024-01-01" =
      [⟨"A", "2024-01-01", Status.present, "F"⟩,
        ⟨"A", "2024-01-01", Status.present, "F"⟩] ∧
    [(⟨"A", "2024-01-01", Status.present, "F"⟩ : AttendanceRecord),
        ⟨"A", "2024-01-01", Status.present, "F"⟩] ≠
      [⟨"A", "2024-01-01", Status.present, "F"⟩] := by
  constructor
  · rfl
  · decide

/-- Claim C3 (corrected): after `saveAttendanceRecords`, the in-memory
priority read `getCurrentAttendance` returns exactly the batch records for
the saved `(folder, date)` pair (the persisted set is not also returned),
while `getAttendanceByFolder` concatenates the in-memory state with the
persisted set and returns each saved record for the pair twice. -/
theorem query_after_save (s : LedgerState) (records : List AttendanceRecord)
    (f d : String) (hd : d ≠ "")
    (hpair : ∃ rb ∈ records, rb.folderName = f ∧ rb.date = d) :
    getCurrentAttendance (saveAttendanceRecords s records) f d =
      records.filter (fun r => r.folderName == f && r.date == d) ∧
    getAttendanceByFolder (saveAttendanceRecords s records) f d =
      records.filter (fun r => r.folderName == f && r.date == d) ++
        records.filter (fun r => r.folderName == f && r.date == d) := by
  obtain ⟨rb, hrb, hbf, hbd⟩ := hpair
  have hbpred : (rb.folderName == f && rb.date == d) = true := by
    simp [hbf, hbd]
  have hcur : rb ∈ records.filter (fun r => r.folderName == f && r.date == d) :=
    List.mem_filter.mpr ⟨hrb, hbpred⟩
  have hlen : 0 < (records.filter
      (fun r => r.folderName == f && r.date == d)).length :=
    List.length_pos.mpr (List.ne_nil_of_mem hcur)
  have hfilt : (s.attendance.filter
        (fun r => !((records.map recordKey).contains (recordKey r)))).filter
      (fun r => r.folderName == f && r.date == d) = [] := by
    rw [List.filter_eq_nil_iff]
    intro r hr hpred
    have hmem := List.mem_filter.mp hr
    have hnc := hmem.2
    rw [Bool.not_eq_true', ← Bool.not_eq_true, List.elem_iff] at hnc
    apply hnc
    have hk : recordKey r = recordKey rb := by
      have h1 : r.folderName = f := by
        have := (Bool.and_eq_true _ _).mp hpred |>.1
        exact beq_iff_eq.mp this
      have h2 : r.date = d := by
        have := (Bool.and_eq_true _ _).mp hpred |>.2
        exact beq_iff_eq.mp this
      simp [recordKey, h1, h2, hbf, hbd]
    rw [hk]
    exact List.mem_map_of_mem _ hrb
  constructor
  · simp only [getCurrentAttendance, saveAttendanceRecords]
    rw [if_pos hlen]
  · simp only [getAttendanceByFolder, saveAttendanceRecords, if_neg hd]
    simp only [List.filter_append, hfilt]
    simp

/-- Witness for claim C3: the amended theorem applied at a concrete
single-record batch. -/
theorem query_after_save_witness :
    getCurrentAttendance
        (saveAttendanceRecords ⟨[], [], [], []⟩
          [⟨"A", "2024-01-01", Status.present, "F"⟩]) "F" "2024-01-01" =
      [⟨"A", "2024-01-01", Status.present, "F"⟩].filter
        (fun r => r.folderName == "F" && r.date == "2024-01-01") ∧
    getAttendanceByFolder
        (saveAttendanceRecords ⟨[], [], [], []⟩
          [⟨"A", "2024-01-01", Status.present, "F"⟩]) "F" "2024-01-01" =
      [⟨"A", "2024-01-01", Status.present, "F"⟩].filter
          (fun r => r.folderName == "F" && r.date == "2024-01-01") ++
        [⟨"A", "2024-01-01", Status.present, "F"⟩].filter
          (fun r => r.folderName == "F" && r.date == "2024-01-01") :=
  query_after_save ⟨[], [], [], []⟩ [⟨"A", "2024-01-01", Status.present, "F"⟩]
    "F" "2024-01-01" (by decide)
    ⟨⟨"A", "2024-01-01", Status.present, "F"⟩, by decide, rfl, rfl⟩

end AttendanceLedgerProofs

section AdvanceLedgerProofs

/-- Counterexample for claim C5: an undeducted advance dated after the
as-of date, belonging to a folder member, is still returned by
`loadWorkersWithAdvance` — the code applies no `date ≤ asOfDate`
condition, so it differs from the spec-modelled filter. -/
theorem loadWorkersWithAdvance_ignores_date :
    (⟨"a1", "w1", "N", 100, 5, "", none, none⟩ : Advance) ∈
      loadWorkersWithAdvance [⟨"a1", "w1", "N", 100, 5, "", none, none⟩]
        [⟨"w1", "N", ["F"]⟩] "F" ∧
    ¬((⟨"a1", "w1", "N", 100, 5, "", none, none⟩ : Advance).date ≤ 0) ∧
    loadWorkersWithAdvance [⟨"a1", "w1", "N", 100, 5, "", none, none⟩]
        [⟨"w1", "N", ["F"]⟩] "F" ≠
      specListUnsettledForFolder [⟨"a1", "w1", "N", 100, 5, "", none, none⟩]
        [⟨"w1", "N", ["F"]⟩] "F" 0 := by
  refine ⟨?_, by decide, ?_⟩
  · simp [loadWorkersWithAdvance, isDeducted]
  · simp [loadWorkersWithAdvance, specListUnsettledForFolder, isDeducted]

/-- Claim C5 (corrected): `loadWorkersWithAdvance` returns exactly the
advances that are not deducted and whose worker is a member of the
selected folder — two conditions, with no date bound. -/
theorem loadWorkersWithAdvance_characterization (advances : List Advance)
    (workers : List Worker) (folderName : String) (a : Advance) :
    a ∈ loadWorkersWithAdvance advances workers folderName ↔
      a ∈ advances ∧ isDeducted a = false ∧
        ∃ w ∈ workers, w.id = a.workerId ∧ folderName ∈ w.folders := by
  simp only [loadWorkersWithAdvance, List.mem_filter, Bool.and_eq_true,
    Bool.not_eq_true', List.any_eq_true, beq_iff_eq, List.elem_iff]

/-- Counterexample for claim C9: the advance-entry workflow creates rows
with no `deducted` field at all (`none`), not a present boolean `false`. -/
theorem addAdvance_no_deducted_field :
    addAdvance [] ["w1"] [⟨"w1", "Asha", ["F"]⟩] true 100 0 "r" "t" =
      [⟨"tw1", "w1", "Asha", 100, 0, "r", none, none⟩] ∧
    (⟨"tw1", "w1", "Asha", 100, 0, "r", none, none⟩ : Advance).deducted ≠
      some false := by
  constructor
  · rfl
  · decide

/-- Claim C9 (corrected): each submission with workers selected and an
amount entered appends exactly one independent advance row per selected
worker; the created rows carry no `deducted` field (`none`, i.e. the field
is absent rather than an explicit `false`), which every reader treats as
not settled (`isDeducted` is `false`). -/
theorem addAdvance_one_row_per_worker (advances : List Advance)
    (selectedWorkers : List String) (workers : List Worker) (amount date : Int)
    (remarks nowId : String) (h : selectedWorkers.length > 0) :
    addAdvance advances selectedWorkers workers true amount date remarks nowId =
      advances ++ selectedWorkers.map
        (fun wid => mkAdvance nowId wid workers amount date remarks) ∧
    ∀ wid ∈ selectedWorkers,
      (mkAdvance nowId wid workers amount date remarks).workerId = wid ∧
      (mkAdvance nowId wid workers amount date remarks).deducted = none ∧
      isDeducted (mkAdvance nowId wid workers amount date remarks) = false := by
  constructor
  · simp [addAdvance, h]
  · intro wid _
    exact ⟨rfl, rfl, rfl⟩

/-- Witness for claim C9: the amended theorem applied to a two-worker
submission, instantiated at the first selected worker. -/
theorem addAdvance_one_row_per_worker_witness :
    addAdvance [] ["w1", "w2"] [⟨"w1", "Asha", ["F"]⟩] true 100 0 "r" "t" =
      [] ++ ["w1", "w2"].map
        (fun wid => mkAdvance "t" wid [⟨"w1", "Asha", ["F"]⟩] 100 0 "r") ∧
    ((mkAdvance "t" "w1" [⟨"w1", "Asha", ["F"]⟩] 100 0 "r").workerId = "w1" ∧
      (mkAdvance "t" "w1" [⟨"w1", "Asha", ["F"]⟩] 100 0 "r").deducted = none ∧
      isDeducted (mkAdvance "t" "w1" [⟨"w1", "Asha", ["F"]⟩] 100 0 "r") = false) :=
  ⟨(addAdvance_one_row_per_worker [] ["w1", "w2"] [⟨"w1", "Asha", ["F"]⟩] 100 0
      "r" "t" (by decide)).1,
    (addAdvance_one_row_per_worker [] ["w1", "w2"] [⟨"w1", "Asha", ["F"]⟩] 100 0
      "r" "t" (by decide)).2 "w1" (by decide)⟩

end AdvanceLedgerProofs

section SettlementProofs

lemma settleStep_of_cond_false (selected : List String) (endDate : Int)
    (now : String) (a : Advance)
    (hc : (selected.contains a.workerId && decide (a.date ≤ endDate) &&
      !(isDeducted a)) = false) :
    settleStep selected endDate now a = a := by
  unfold settleStep
  rw [hc]
  rfl

lemma settleStep_of_cond_true (selected : List String) (endDate : Int)
    (now : String) (a : Advance)
    (hc : (selected.contains a.workerId && decide (a.date ≤ endDate) &&
      !(isDeducted a)) = true) :
    settleStep selected endDate now a =
      { a with deducted := some true, deductedOn := some now } := by
  unfold settleStep
  rw [hc]
  rfl

lemma isDeducted_stamped (a : Advance) (now : String) :
    isDeducted { a with deducted := some true, deductedOn := some now } = true :=
  rfl

lemma settleStep_idem (selected : List String) (endDate : Int)
    (now now2 : String) (a : Advance) :
    settleStep selected endDate now2 (settleStep selected endDate now a) =
      settleStep selected endDate now a := by
  by_cases hc : (selected.contains a.workerId && decide (a.date ≤ endDate) &&
      !(isDeducted a)) = true
  · rw [settleStep_of_cond_true selected endDate now a hc]
    apply settleStep_of_cond_false
    rw [isDeducted_stamped]
    simp
  · have hc' : (selected.contains a.workerId && decide (a.date ≤ endDate) &&
        !(isDeducted a)) = false := Bool.eq_false_iff.mpr hc
    rw [settleStep_of_cond_false selected endDate now a hc',
      settleStep_of_cond_false selected endDate now2 a hc']

lemma settleStep_report_pred (selected : List String) (endDate : Int)
    (now : String) (workerId : String) (endDate2 : Int)
    (selected2 : List String) (a : Advance) :
    ((settleStep selected endDate now a).workerId == workerId &&
        decide ((settleStep selected endDate now a).date ≤ endDate2) &&
        !(isDeducted (settleStep selected endDate now a)) &&
        selected2.contains workerId) =
      (!(selected.contains a.workerId && decide (a.date ≤ endDate)) &&
        (a.workerId == workerId && decide (a.date ≤ endDate2) &&
          !(isDeducted a) && selected2.contains workerId)) := by
  by_cases hc : (selected.contains a.workerId && decide (a.date ≤ endDate) &&
      !(isDeducted a)) = true
  · rw [settleStep_of_cond_true selected endDate now a hc]
    have h1 := ((Bool.and_eq_true _ _).mp hc).1
    rw [isDeducted_stamped]
    show (a.workerId == workerId && decide (a.date ≤ endDate2) && !true &&
        selected2.contains workerId) = _
    rw [h1]
    simp
  · have hc' : (selected.contains a.workerId && decide (a.date ≤ endDate) &&
        !(isDeducted a)) = false := Bool.eq_false_iff.mpr hc
    rw [settleStep_of_cond_false selected endDate now a hc']
    cases hcl : (selected.contains a.workerId && decide (a.date ≤ endDate)) with
    | true =>
      rw [hcl, Bool.true_and] at hc'
      rw [hc']
      simp
    | false =>
      simp

/-- Claim C2 (confirmed): the settlement write-back is idempotent — running
it twice with the same selected worker ids and end date equals running it
once, so an already-settled advance is never re-stamped — and a report
regenerated afterwards draws its per-worker advance set only from advances
the first settlement did not consume (no double-deduction). -/
theorem settleAdvances_once (advances : List Advance) (selected : List String)
    (endDate : Int) (now now2 : String) (workerId : String) (endDate2 : Int)
    (selected2 : List String) :
    settleAdvances (settleAdvances advances selected endDate now) selected
        endDate now2 =
      settleAdvances advances selected endDate now ∧
    reportWorkerAdvances (settleAdvances advances selected endDate now)
        workerId endDate2 selected2 =
      (reportWorkerAdvances advances workerId endDate2 selected2).filter
        (fun a => !(selected.contains a.workerId && decide (a.date ≤ endDate))) := by
  constructor
  · simp only [settleAdvances, List.map_map]
    apply List.map_congr_left
    intro a _
    exact settleStep_idem selected endDate now now2 a
  · simp only [reportWorkerAdvances, List.filter_filter, settleAdvances]
    induction advances with
    | nil => rfl
    | cons a l ih =>
      simp only [List.map_cons, List.filter_cons]
      rw [settleStep_report_pred selected endDate now workerId endDate2
        selected2 a, ih]
      split
      · next hC =>
        have hq := ((Bool.and_eq_true _ _).mp hC).1
        have hcl : (selected.contains a.workerId &&
            decide (a.date ≤ endDate)) = false := by
          rw [Bool.not_eq_true'] at hq
          exact hq
        have hcond : (selected.contains a.workerId && decide (a.date ≤ endDate) &&
            !(isDeducted a)) = false := by
          rw [hcl, Bool.false_and]
        rw [settleStep_of_cond_false selected endDate now a hcond]
      · rfl

/-- Claim C7 (confirmed): every report row built by `generateReportData`
satisfies `netPayment = max 0 (totalPayment - advanceDeducted)` and hence
is never negative, for any combination of rates, attendance records and
advances. -/
theorem netPayment_nonneg (workers : List Worker)
    (attendance : List AttendanceRecord) (advances : List Advance)
    (rates : Rates) (deductAdvance : Bool)
    (selectedAdvanceWorkers : List String) (folder : String)
    (dates : List String) (endDate : Int) (row : WorkerReport)
    (hrow : row ∈ generateReportData workers attendance advances rates
      deductAdvance selectedAdvanceWorkers folder dates endDate) :
    row.netPayment = max 0 (row.totalPayment - row.advanceDeducted) ∧
      0 ≤ row.netPayment := by
  simp only [generateReportData, List.mem_map] at hrow
  obtain ⟨w, _, hw⟩ := hrow
  subst hw
  refine ⟨rfl, le_max_left 0 _⟩

/-- Witness for claim C7: the theorem applied to a concrete one-worker
report. -/
theorem netPayment_nonneg_witness :
    (workerRow [] [] ⟨600, 250⟩ true [] "F" ⟨"w1", "N", ["F"]⟩ [] 0).netPayment =
      max 0 ((workerRow [] [] ⟨600, 250⟩ true [] "F" ⟨"w1", "N", ["F"]⟩ [] 0).totalPayment -
        (workerRow [] [] ⟨600, 250⟩ true [] "F" ⟨"w1", "N", ["F"]⟩ [] 0).advanceDeducted) ∧
      0 ≤ (workerRow [] [] ⟨600, 250⟩ true [] "F" ⟨"w1", "N", ["F"]⟩ [] 0).netPayment :=
  netPayment_nonneg [⟨"w1", "N", ["F"]⟩] [] [] ⟨600, 250⟩ true [] "F" [] 0
    (workerRow [] [] ⟨600, 250⟩ true [] "F" ⟨"w1", "N", ["F"]⟩ [] 0)
    (by simp [generateReportData])

/-- Counterexample for claim C4: with settlement enabled and an eligible
advance, a failed artifact export aborts the run before the report
metadata is persisted, but the consumed advance has already been written
back as `deducted` — it is not left unsettled. -/
theorem exportFailure_leaves_advances_settled :
    (runReportEffects ⟨[⟨"a1", "w1", "N", 100, 1, "", none, none⟩], []⟩
        true ["w1"] 5 "now" false true "meta1").2.isSome = true ∧
    (runReportEffects ⟨[⟨"a1", "w1", "N", 100, 1, "", none, none⟩], []⟩
        true ["w1"] 5 "now" false true "meta1").1.savedReports = [] ∧
    (runReportEffects ⟨[⟨"a1", "w1", "N", 100, 1, "", none, none⟩], []⟩
        true ["w1"] 5 "now" false true "meta1").1.advances =
      [⟨"a1", "w1", "N", 100, 1, "", some true, some "now"⟩] ∧
    isDeducted (⟨"a1", "w1", "N", 100, 1, "", some true, some "now"⟩ : Advance) =
      true := by
  refine ⟨rfl, rfl, ?_, rfl⟩
  simp [runReportEffects, settleAdvances, settleStep, isDeducted]

/-- Claim C4 (corrected): a failed settlement write aborts the run with the
state unchanged (no advance settled, no metadata persisted); a failed
artifact export aborts before the metadata is persisted, but the advances
have already been settled by the preceding write-back; only a fully
successful run appends the metadata entry. -/
theorem reportEffects_failure_semantics (s : ReportState)
    (selectedAdvanceWorkers : List String) (endDate : Int) (now meta : String)
    (exportFails : Bool) (hsel : selectedAdvanceWorkers ≠ []) :
    runReportEffects s true selectedAdvanceWorkers endDate now true exportFails
        meta =
      (s, some "storage error during settlement write-back") ∧
    runReportEffects s true selectedAdvanceWorkers endDate now false true meta =
      ({ advances := settleAdvances s.advances selectedAdvanceWorkers endDate now,
         savedReports := s.savedReports }, some "artifact export failed") ∧
    runReportEffects s true selectedAdvanceWorkers endDate now false false meta =
      ({ advances := settleAdvances s.advances selectedAdvanceWorkers endDate now,
         savedReports := s.savedReports ++ [meta] }, none) := by
  have h : (true && !(selectedAdvanceWorkers.isEmpty)) = true := by
    simp [hsel]
  refine ⟨?_, ?_, ?_⟩ <;> simp [runReportEffects, h]

/-- Witness for claim C4: the amended theorem applied to a concrete state
and selection. -/
theorem reportEffects_failure_semantics_witness :
    runReportEffects ⟨[], []⟩ true ["w1"] 5 "now" true false "m" =
      (⟨[], []⟩, some "storage error during settlement write-back") ∧
    runReportEffects ⟨[], []⟩ true ["w1"] 5 "now" false true "m" =
      ({ advances := settleAdvances ([] : List Advance) ["w1"] 5 "now",
         savedReports := [] }, some "artifact export failed") ∧
    runReportEffects ⟨[], []⟩ true ["w1"] 5 "now" false false "m" =
      ({ advances := settleAdvances ([] : List Advance) ["w1"] 5 "now",
         savedReports := [] ++ ["m"] }, none) :=
  reportEffects_failure_semantics ⟨[], []⟩ ["w1"] 5 "now" "m" false
    (by decide)

end SettlementProofs

section DenominationOptimizerProofs

lemma keyLe_refl (k : Int × Int) : keyLe k k :=
  Or.inr ⟨rfl, le_refl _⟩

lemma keyLe_trans {k1 k2 k3 : Int × Int} (h1 : keyLe k1 k2) (h2 : keyLe k2 k3) :
    keyLe k1 k3 := by
  rcases h1 with h1 | ⟨h1e, h1t⟩ <;> rcases h2 with h2 | ⟨h2e, h2t⟩
  · exact Or.inl (h1.trans h2)
  · exact Or.inl (h2e ▸ h1)
  · exact Or.inl (h1e ▸ h2)
  · exact Or.inr ⟨h1e.trans h2e, h1t.trans h2t⟩

lemma sum_pairFor {rounded : Int} (h100 : (100 : Int) ∣ rounded) (n5 : Int) :
    (pairFor rounded n5).notes500 * 500 + (pairFor rounded n5).notes100 * 100 =
      rounded := by
  obtain ⟨c, hc⟩ := h100
  simp only [pairFor]
  omega

lemma noteStep_none {rounded : Int} (h100 : (100 : Int) ∣ rounded)
    (r0 : NoteResult) (n5 : Int) :
    noteStep rounded (none, r0) n5 =
      (some (keyOf (pairFor rounded n5)).1, pairFor rounded n5) := by
  have hsum := sum_pairFor h100 n5
  simp only [pairFor] at hsum
  simp only [noteStep, hsum, if_pos, keyOf, pairFor]

lemma noteStep_some {rounded : Int} (h100 : (100 : Int) ∣ rounded)
    (p : NoteResult) (n5 : Int) :
    noteStep rounded (some (keyOf p).1, p) n5 =
      if (keyOf (pairFor rounded n5)).1 < (keyOf p).1 ∨
          ((keyOf (pairFor rounded n5)).1 = (keyOf p).1 ∧
            (pairFor rounded n5).notes500 + (pairFor rounded n5).notes100 <
              p.notes500 + p.notes100) then
        (some (keyOf (pairFor rounded n5)).1, pairFor rounded n5)
      else (some (keyOf p).1, p) := by
  have hsum := sum_pairFor h100 n5
  simp only [pairFor] at hsum
  simp only [noteStep, hsum, if_pos, keyOf, pairFor]
  split
  · next hdec =>
    rw [decide_eq_true_iff] at hdec
    rw [if_pos hdec]
  · next hdec =>
    rw [decide_eq_true_iff, not_or] at hdec
    rw [if_neg]
    intro hcon
    rcases hcon with hcon | hcon
    · exact hdec.1 hcon
    · exact hdec.2 hcon

lemma foldl_noteStep_inv {rounded : Int} (h100 : (100 : Int) ∣ rounded)
    (l : List Int) (p : NoteResult) :
    ((l.foldl (noteStep rounded) (some (keyOf p).1, p)).2 = p ∨
      ∃ n5 ∈ l,
        (l.foldl (noteStep rounded) (some (keyOf p).1, p)).2 =
          pairFor rounded n5) ∧
    keyLe (keyOf (l.foldl (noteStep rounded) (some (keyOf p).1, p)).2)
      (keyOf p) ∧
    ∀ n5 ∈ l,
      keyLe (keyOf (l.foldl (noteStep rounded) (some (keyOf p).1, p)).2)
        (keyOf (pairFor rounded n5)) := by
  induction l generalizing p with
  | nil =>
    refine ⟨Or.inl rfl, keyLe_refl _, ?_⟩
    intro n5 h
    exact absurd h (List.not_mem_nil n5)
  | cons n5 l ih =>
    rw [List.foldl_cons, noteStep_some h100]
    split
    · next hbet =>
      obtain ⟨ihcov, ihle, ihall⟩ := ih (pairFor rounded n5)
      have hb : keyLe (keyOf (pairFor rounded n5)) (keyOf p) := by
        rcases hbet with hbet | ⟨hbe, hbt⟩
        · exact Or.inl hbet
        · exact Or.inr ⟨hbe, le_of_lt hbt⟩
      refine ⟨?_, keyLe_trans ihle hb, ?_⟩
      · rcases ihcov with h | ⟨m, hm, hmeq⟩
        · exact Or.inr ⟨n5, List.mem_cons_self n5 l, h⟩
        · exact Or.inr ⟨m, List.mem_cons_of_mem n5 hm, hmeq⟩
      · intro m hm
        rcases List.mem_cons.mp hm with hm | hm
        · exact hm ▸ ihle
        · exact ihall m hm
    · next hbet =>
      obtain ⟨ihcov, ihle, ihall⟩ := ih p
      have hnb : keyLe (keyOf p) (keyOf (pairFor rounded n5)) := by
        rw [not_or] at hbet
        obtain ⟨hb1, hb2⟩ := hbet
        rcases lt_or_eq_of_le (not_lt.mp hb1) with hlt | heq
        · exact Or.inl hlt
        · refine Or.inr ⟨heq, ?_⟩
          by_contra hcon
          exact hb2 ⟨heq.symm, by
            have := not_le.mp hcon
            simpa [keyOf] using this⟩
      refine ⟨?_, ihle, ?_⟩
      · rcases ihcov with h | ⟨m, hm, hmeq⟩
        · exact Or.inl h
        · exact Or.inr ⟨m, List.mem_cons_of_mem n5 hm, hmeq⟩
      · intro m hm
        rcases List.mem_cons.mp hm with hm | hm
        · exact hm ▸ keyLe_trans ihle hnb
        · exact ihall m hm

lemma foldl_noteStep_from_none {rounded : Int} (h100 : (100 : Int) ∣ rounded)
    (l : List Int) (r0 : NoteResult) (hl : l ≠ []) :
    (∃ n5 ∈ l,
      (l.foldl (noteStep rounded) (none, r0)).2 = pairFor rounded n5) ∧
    ∀ n5 ∈ l,
      keyLe (keyOf (l.foldl (noteStep rounded) (none, r0)).2)
        (keyOf (pairFor rounded n5)) := by
  cases l with
  | nil => exact absurd rfl hl
  | cons n5 l =>
    rw [List.foldl_cons, noteStep_none h100]
    obtain ⟨ihcov, ihle, ihall⟩ := foldl_noteStep_inv h100 l (pairFor rounded n5)
    constructor
    · rcases ihcov with h | ⟨m, hm, hmeq⟩
      · exact ⟨n5, List.mem_cons_self n5 l, h⟩
      · exact ⟨m, List.mem_cons_of_mem n5 hm, hmeq⟩
    · intro m hm
      rcases List.mem_cons.mp hm with hm | hm
      · exact hm ▸ ihle
      · exact ihall m hm

lemma mem_noteCandidates {rounded : Int} (h : 0 ≤ rounded) (n5 : Int) :
    n5 ∈ noteCandidates rounded ↔ 0 ≤ n5 ∧ n5 * 500 ≤ rounded := by
  have hmax : ¬(rounded / 500 < 0) := by omega
  simp only [noteCandidates, if_neg hmax, List.mem_map, List.mem_range]
  constructor
  · rintro ⟨m, hm, rfl⟩
    simp only [Int.ofNat_eq_natCast]
    omega
  · rintro ⟨h0, h500⟩
    refine ⟨n5.toNat, by omega, ?_⟩
    simp only [Int.ofNat_eq_natCast]
    omega

lemma noteCandidates_ne_nil {rounded : Int} (h : 0 ≤ rounded) :
    noteCandidates rounded ≠ [] := by
  intro hcon
  have : (0 : Int) ∈ noteCandidates rounded := (mem_noteCandidates h 0).mpr
    ⟨le_refl 0, by omega⟩
  rw [hcon] at this
  exact List.not_mem_nil 0 this

lemma roundTo100_dvd (amount : Int) : (100 : Int) ∣ roundTo100 amount :=
  dvd_mul_left 100 ((amount + 50) / 100)

lemma roundTo100_nonneg {amount : Int} (h : 0 ≤ amount) :
    0 ≤ roundTo100 amount := by
  simp only [roundTo100]
  omega

/-- Claim C6 (confirmed): for every non-negative amount the optimizer
returns non-negative counts summing exactly to the amount rounded to the
nearest multiple of 100 (half rounds up, as `Math.round` does), the pair
minimizes `|notes500 - notes100|` over all non-negative pairs achieving
that sum with ties broken by the smaller total note count, amount 0 yields
`{0, 0}`, and 850 rounds to 900 yielding one 500-note and four
100-notes. -/
theorem calculateNoteDistribution_optimal (amount : Int) (h : 0 ≤ amount) :
    0 ≤ (calculateNoteDistribution amount).notes500 ∧
    0 ≤ (calculateNoteDistribution amount).notes100 ∧
    (calculateNoteDistribution amount).notes500 * 500 +
        (calculateNoteDistribution amount).notes100 * 100 = roundTo100 amount ∧
    (∀ a b : Int, 0 ≤ a → 0 ≤ b → a * 500 + b * 100 = roundTo100 amount →
      |(calculateNoteDistribution amount).notes500 -
          (calculateNoteDistribution amount).notes100| ≤ |a - b| ∧
        (|a - b| = |(calculateNoteDistribution amount).notes500 -
            (calculateNoteDistribution amount).notes100| →
          (calculateNoteDistribution amount).notes500 +
              (calculateNoteDistribution amount).notes100 ≤ a + b)) ∧
    calculateNoteDistribution 0 = ⟨0, 0⟩ ∧
    calculateNoteDistribution 850 = ⟨1, 4⟩ := by
  have h100 := roundTo100_dvd amount
  have hr0 := roundTo100_nonneg h
  obtain ⟨⟨n5, hn5mem, hn5eq⟩, hall⟩ :=
    foldl_noteStep_from_none h100 (noteCandidates (roundTo100 amount)) ⟨0, 0⟩
      (noteCandidates_ne_nil hr0)
  have hres : calculateNoteDistribution amount = pairFor (roundTo100 amount) n5 := by
    simp only [calculateNoteDistribution]
    exact hn5eq
  obtain ⟨hn5nonneg, hn5le⟩ := (mem_noteCandidates hr0 n5).mp hn5mem
  obtain ⟨c, hc⟩ := roundTo100_dvd amount
  refine ⟨?_, ?_, ?_, ?_, by decide, by decide⟩
  · rw [hres]
    exact hn5nonneg
  · rw [hres]
    simp only [pairFor]
    omega
  · rw [hres]
    exact sum_pairFor h100 n5
  · intro a b ha hb hab
    have hbeq : b = (roundTo100 amount - a * 500) / 100 := by omega
    have hpa : pairFor (roundTo100 amount) a = ⟨a, b⟩ := by
      simp only [pairFor]
      rw [← hbeq]
    have hamem : a ∈ noteCandidates (roundTo100 amount) :=
      (mem_noteCandidates hr0 a).mpr ⟨ha, by omega⟩
    have hkey := hall a hamem
    rw [hpa] at hkey
    have hkey2 : keyLe (keyOf (calculateNoteDistribution amount))
        (keyOf ⟨a, b⟩) := by
      simpa only [calculateNoteDistribution] using hkey
    rcases hkey2 with hlt | ⟨heq, hle⟩
    · constructor
      · exact le_of_lt (by simpa [keyOf] using hlt)
      · intro hcon
        exfalso
        simp only [keyOf] at hlt
        omega
    · constructor
      · exact le_of_eq (by simpa [keyOf] using heq)
      · intro _
        simpa [keyOf] using hle

/-- Witness for claim C6: the theorem applied at amount 850 against the
feasible alternative of zero 500-notes and nine 100-notes. -/
theorem calculateNoteDistribution_optimal_witness :
    (0 : Int) ≤ 850 ∧
    |(calculateNoteDistribution 850).notes500 -
        (calculateNoteDistribution 850).notes100| ≤ |(0 : Int) - 9| :=
  ⟨by decide, ((calculateNoteDistribution_optimal 850 (by decide)).2.2.2.1 0 9
    (by decide) (by decide) (by decide)).1⟩

/-- Counterexample for claim C10: at amount `-1` the rounded amount is 0,
the search loop does execute (the candidate list is nonempty), and the
exact-sum equation holds even though the amount is strictly negative. -/
theorem noteDistribution_negative_boundary :
    (-1 : Int) < 0 ∧
    (calculateNoteDistribution (-1)).notes500 * 500 +
        (calculateNoteDistribution (-1)).notes100 * 100 = roundTo100 (-1) ∧
    noteCandidates (roundTo100 (-1)) ≠ [] := by
  decide

/-- Claim C10 (corrected): every strictly negative amount yields
`{notes500 := 0, notes100 := 0}`; the search loop is skipped (negative
maximum 500-note count) exactly when the amount is at most `-51`, and the
exact-sum equation holds for a negative amount precisely when the amount
is at least `-50` (where the rounded amount is 0). -/
theorem calculateNoteDistribution_negative (amount : Int) (h : amount < 0) :
    calculateNoteDistribution amount = ⟨0, 0⟩ ∧
    (amount ≤ -51 → roundTo100 amount < 0 ∧
      noteCandidates (roundTo100 amount) = []) ∧
    ((calculateNoteDistribution amount).notes500 * 500 +
        (calculateNoteDistribution amount).notes100 * 100 = roundTo100 amount ↔
      -50 ≤ amount) := by
  have hval : calculateNoteDistribution amount = ⟨0, 0⟩ := by
    by_cases h0 : roundTo100 amount = 0
    · simp only [calculateNoteDistribution, h0]
      rfl
    · have hcand : noteCandidates (roundTo100 amount) = [] := by
        simp only [noteCandidates]
        rw [if_pos]
        simp only [roundTo100] at h0 ⊢
        omega
      simp only [calculateNoteDistribution, hcand]
      rfl
  refine ⟨hval, ?_, ?_⟩
  · intro h51
    have hneg : roundTo100 amount < 0 := by
      simp only [roundTo100]
      omega
    refine ⟨hneg, ?_⟩
    simp only [noteCandidates]
    rw [if_pos]
    omega
  · rw [hval]
    show (0 * 500 + 0 * 100 = roundTo100 amount ↔ -50 ≤ amount)
    simp only [roundTo100]
    constructor
    · intro heq
      omega
    · intro hge
      omega

/-- Witness for claim C10: the amended theorem applied at amount `-100`. -/
theorem calculateNoteDistribution_negative_witness :
    calculateNoteDistribution (-100) = ⟨0, 0⟩ ∧
    roundTo100 (-100) < 0 ∧
    noteCandidates (roundTo100 (-100)) = [] :=
  ⟨(calculateNoteDistribution_negative (-100) (by decide)).1,
    (calculateNoteDistribution_negative (-100) (by decide)).2.1 (by decide)⟩

end DenominationOptimizerProofs
